import Mathlib

/-
Shallow embedding of a token-bucket rate limiter (ratelimiter.py).

Python numerics are idealised as exact arithmetic: the float division
`a / b` followed by `int(...)` (truncation toward zero) is modelled as
rational division followed by `pyTrunc`; `time.monotonic_ns` is modelled
by passing the current monotonic timestamp `now : Int` explicitly to the
operations that read the clock.  Operations that can raise a Python
exception return `Except PyError`.
-/

/-- Python exceptions raised by the code: `ValueError` (the spec's
InvalidArgument) and `ZeroDivisionError`. -/
inductive PyError where
  | valueError
  | zeroDivisionError
deriving DecidableEq, Repr

/-- The `_SECOND_AS_NS` constant: one second in nanoseconds. -/
def SECOND_AS_NS : Int := 1000000000

/-- Python `int(q)` on an exact rational: truncation toward zero. -/
def pyTrunc (q : ℚ) : Int := q.num.tdiv q.den

/-- The frozen dataclass `Rate`: only `period_ns` survives construction
(`amount` is an InitVar consumed by `__post_init__`). -/
structure Rate where
  period_ns : Int
deriving DecidableEq, Repr

/-- `Rate(amount, period_ns)`: `__post_init__` raises `ValueError` when
`amount < 1`, otherwise normalises `period_ns = int(period_ns / amount)`;
on integer operands exact `int(a / b)` is truncating division `Int.tdiv`. -/
def Rate.make (amount : Int) (period_ns : Int) : Except PyError Rate :=
  if amount < 1 then .error .valueError
  else .ok ⟨period_ns.tdiv amount⟩

/-- `Rate.from_frequency`: `period_sec = 1 / frequency_per_sec` (raises
`ZeroDivisionError` on zero), `period_ns = int(period_sec * _SECOND_AS_NS)`,
then `Rate(1, period_ns)`. -/
def Rate.from_frequency (frequency_per_sec : ℚ) : Except PyError Rate :=
  if frequency_per_sec = 0 then .error .zeroDivisionError
  else
    let period_sec : ℚ := 1 / frequency_per_sec
    let period_ns : Int := pyTrunc (period_sec * (SECOND_AS_NS : ℚ))
    Rate.make 1 period_ns

/-- `Rate.period_sec`: the period as a fractional second. -/
def Rate.period_sec (r : Rate) : ℚ := (r.period_ns : ℚ) / (SECOND_AS_NS : ℚ)

/-- The `Bucket` class state: `_volume`, `_refill_rate`, `_current`,
`_last_refill_ns`. -/
structure Bucket where
  volume : Int
  refill_rate : Rate
  current : Int
  last_refill_ns : Int
deriving DecidableEq, Repr

/-- `Bucket.__init__`: starts full (`_current = volume`) with
`_last_refill_ns = time.monotonic_ns()`. -/
def Bucket.init (volume : Int) (refill_rate : Rate) (now : Int) : Bucket :=
  { volume := volume, refill_rate := refill_rate, current := volume,
    last_refill_ns := now }

/-- `Bucket.is_empty`: `self._current <= 0`. -/
def Bucket.is_empty (b : Bucket) : Bool := b.current ≤ 0

/-- `Bucket.remove`: raises `ValueError` on negative `amount`, otherwise
`self._current -= amount` (may go negative). -/
def Bucket.remove (b : Bucket) (amount : Int) : Except PyError Bucket :=
  if amount < 0 then .error .valueError
  else .ok { b with current := b.current - amount }

/-- `Bucket.refill`: when `_current < _volume`, earn
`int(time_since_last_refill / period_ns)` tokens (truncating integer
division; a `ZeroDivisionError` when `period_ns = 0`), cap at `_volume`,
and advance `_last_refill_ns` by `n_tokens * period_ns`; otherwise only
set `_last_refill_ns` to now. -/
def Bucket.refill (b : Bucket) (now : Int) : Except PyError Bucket :=
  if b.current < b.volume then
    if b.refill_rate.period_ns = 0 then .error .zeroDivisionError
    else
      let time_since_last_refill := now - b.last_refill_ns
      let n_tokens := time_since_last_refill.tdiv b.refill_rate.period_ns
      .ok { b with
        current := min (b.current + n_tokens) b.volume,
        last_refill_ns := b.last_refill_ns + n_tokens * b.refill_rate.period_ns }
  else
    .ok { b with last_refill_ns := now }

/-- The `RateLimiter` class: owns a single `Bucket`. -/
structure RateLimiter where
  bucket : Bucket
deriving DecidableEq, Repr

/-- `RateLimiter.__init__`: `Bucket(1, Rate.from_frequency(rps))`. -/
def RateLimiter.init (rps : ℚ) (now : Int) : Except PyError RateLimiter :=
  (Rate.from_frequency rps).map fun r => ⟨Bucket.init 1 r now⟩

/-- `RateLimiter.allow`: refill, reject when empty, otherwise remove one
token and accept. -/
def RateLimiter.allow (rl : RateLimiter) (now : Int) :
    Except PyError (Bool × RateLimiter) :=
  match rl.bucket.refill now with
  | .error e => .error e
  | .ok b =>
    if b.is_empty then .ok (false, ⟨b⟩)
    else
      match b.remove 1 with
      | .error e => .error e
      | .ok b2 => .ok (true, ⟨b2⟩)

/-- Run `allow` once per timestamp in the list, collecting the results. -/
def RateLimiter.allowTrace (rl : RateLimiter) :
    List Int → Except PyError (List Bool × RateLimiter)
  | [] => .ok ([], rl)
  | t :: ts =>
    match rl.allow t with
    | .error e => .error e
    | .ok (r, rl2) =>
      match rl2.allowTrace ts with
      | .error e => .error e
      | .ok (rs, rl3) => .ok (r :: rs, rl3)

/-- A single `Bucket` operation: a `refill` read at a given monotonic
timestamp, or a `remove` of a given amount. -/
inductive BucketOp where
  | refillAt (now : Int)
  | removeAmt (amount : Int)
deriving DecidableEq, Repr

/-- Execute one `BucketOp`. -/
def Bucket.step (b : Bucket) : BucketOp → Except PyError Bucket
  | .refillAt now => b.refill now
  | .removeAmt a => b.remove a

/-- Execute a sequence of `BucketOp`s. -/
def Bucket.run (b : Bucket) : List BucketOp → Except PyError Bucket
  | [] => .ok b
  | op :: ops =>
    match b.step op with
    | .error e => .error e
    | .ok b2 => b2.run ops

/-- A monotonic clock: every `refill` timestamp in the sequence is at
least `t` and the refill timestamps are nondecreasing. -/
def clockOK : Int → List BucketOp → Bool
  | _, [] => true
  | t, .removeAmt _ :: ops => clockOK t ops
  | t, .refillAt now :: ops => decide (t ≤ now) && clockOK now ops

/-- Nondecreasing timestamps starting at or after `t`. -/
def timesOK : Int → List Int → Bool
  | _, [] => true
  | t, t2 :: ts => decide (t ≤ t2) && timesOK t2 ts

/-- On a nonnegative rational, Python truncation agrees with the floor. -/
lemma pyTrunc_eq_floor (q : ℚ) (hq : 0 ≤ q) : pyTrunc q = ⌊q⌋ := by
  rw [pyTrunc, Int.tdiv_eq_ediv (Rat.num_nonneg.mpr hq) (Int.ofNat_nonneg q.den),
    Rat.floor_def]

/-- Python truncation of an integer is the integer itself. -/
lemma pyTrunc_intCast (n : Int) : pyTrunc (n : ℚ) = n := by
  simp [pyTrunc, Rat.num_intCast, Rat.den_intCast]

/-- Python truncation commutes with negation. -/
lemma pyTrunc_neg (q : ℚ) : pyTrunc (-q) = -pyTrunc q := by
  simp [pyTrunc, Rat.neg_num, Rat.neg_den, Int.neg_tdiv]

/-- On a nonpositive rational, Python truncation agrees with the ceiling. -/
lemma pyTrunc_eq_ceil (q : ℚ) (hq : q ≤ 0) : pyTrunc q = ⌈q⌉ := by
  have h := pyTrunc_eq_floor (-q) (by linarith)
  rw [pyTrunc_neg] at h
  rw [Int.floor_neg] at h
  omega

/-- `Rate(1, x)` always succeeds and stores `x` unchanged. -/
lemma Rate.make_one (x : Int) : Rate.make 1 x = .ok ⟨x⟩ := by
  simp [Rate.make, Int.tdiv_one]

/-- `Rate(amount, p)` for a valid amount and nonnegative period performs
floor division. -/
lemma Rate.make_eq (amount p : Int) (ha : 1 ≤ amount) (hp : 0 ≤ p) :
    Rate.make amount p = .ok ⟨p / amount⟩ := by
  rw [Rate.make, if_neg (not_lt.mpr ha), Int.tdiv_eq_ediv hp (by omega)]

/-- For a positive frequency, `from_frequency` stores the floor of
`10^9 / f` nanoseconds. -/
lemma Rate.from_frequency_pos_eq (f : ℚ) (hf : 0 < f) :
    Rate.from_frequency f = .ok ⟨⌊(1000000000 : ℚ) / f⌋⟩ := by
  rw [Rate.from_frequency, if_neg (ne_of_gt hf)]
  have hcast : ((SECOND_AS_NS : Int) : ℚ) = (1000000000 : ℚ) := by
    rw [SECOND_AS_NS]; norm_num
  dsimp only
  rw [hcast, one_div_mul_eq_div,
    pyTrunc_eq_floor _ (div_nonneg (by norm_num) hf.le), Rate.make_one]

/-- `refill` in the needed branch, written out. -/
lemma Bucket.refill_needed_eq (b : Bucket) (now : Int)
    (hlt : b.current < b.volume) (hp : b.refill_rate.period_ns ≠ 0) :
    b.refill now = .ok { b with
      current := min
        (b.current + (now - b.last_refill_ns).tdiv b.refill_rate.period_ns)
        b.volume,
      last_refill_ns := b.last_refill_ns
        + (now - b.last_refill_ns).tdiv b.refill_rate.period_ns
          * b.refill_rate.period_ns } := by
  rw [Bucket.refill, if_pos hlt, if_neg hp]

/-- `refill` in the already-full branch, written out. -/
lemma Bucket.refill_full_eq (b : Bucket) (now : Int)
    (hge : b.volume ≤ b.current) :
    b.refill now = .ok { b with last_refill_ns := now } := by
  rw [Bucket.refill, if_neg (not_lt.mpr hge)]

/-- Earned whole periods, multiplied back, stay within the elapsed time. -/
lemma tdiv_mul_bounds (e p : Int) (he : 0 ≤ e) (hp : 0 < p) :
    0 ≤ e.tdiv p * p ∧ e.tdiv p * p ≤ e := by
  rw [Int.tdiv_eq_ediv he hp.le]
  refine ⟨mul_nonneg (Int.ediv_nonneg he hp.le) hp.le, ?_⟩
  have h1 : 0 ≤ e % p := Int.emod_nonneg e (ne_of_gt hp)
  have h2 : e % p + p * (e / p) = e := Int.emod_add_ediv e p
  nlinarith [h1, h2]

/-- A successful `refill` under a monotonic clock and positive period
preserves volume and rate, never loses tokens, caps the count, and moves
the timestamp forward but not past `now`. -/
lemma Bucket.refill_ok_inv (b b2 : Bucket) (now : Int)
    (hp : 0 < b.refill_rate.period_ns) (hle : b.last_refill_ns ≤ now)
    (h : b.refill now = .ok b2) :
    b2.volume = b.volume ∧ b2.refill_rate = b.refill_rate ∧
    b.current ≤ b2.current ∧ b2.current ≤ max b.current b.volume ∧
    b.last_refill_ns ≤ b2.last_refill_ns ∧ b2.last_refill_ns ≤ now := by
  by_cases hlt : b.current < b.volume
  · rw [Bucket.refill_needed_eq b now hlt (ne_of_gt hp)] at h
    have h2 := Except.ok.inj h
    subst h2
    have hb := tdiv_mul_bounds (now - b.last_refill_ns) b.refill_rate.period_ns
      (by omega) hp
    have hn : 0 ≤ (now - b.last_refill_ns).tdiv b.refill_rate.period_ns := by
      nlinarith [hb.1, hp]
    refine ⟨rfl, rfl, ?_, ?_, ?_, ?_⟩ <;> simp only [] <;> omega
  · rw [Bucket.refill_full_eq b now (not_lt.mp hlt)] at h
    have h2 := Except.ok.inj h
    subst h2
    refine ⟨rfl, rfl, le_refl _, le_max_left _ _, hle, le_refl _⟩

/-- Weakening the starting timestamp preserves clock monotonicity. -/
lemma clockOK_mono (s t : Int) (ops : List BucketOp) (hst : s ≤ t)
    (h : clockOK t ops = true) : clockOK s ops = true := by
  induction ops generalizing s t with
  | nil => rfl
  | cons op ops ih =>
    cases op with
    | removeAmt a =>
      rw [clockOK] at h ⊢
      exact ih s t hst h
    | refillAt now =>
      rw [clockOK, Bool.and_eq_true, decide_eq_true_eq] at h ⊢
      exact ⟨by omega, h.2⟩

/-- Running any operation sequence under a monotonic clock never moves
the refill timestamp backward. -/
lemma run_last_mono (ops : List BucketOp) :
    ∀ (b b2 : Bucket), 0 < b.refill_rate.period_ns →
    clockOK b.last_refill_ns ops = true → b.run ops = .ok b2 →
    b.last_refill_ns ≤ b2.last_refill_ns := by
  induction ops with
  | nil =>
    intro b b2 _ _ h
    rw [Bucket.run] at h
    rw [← Except.ok.inj h]
  | cons op ops ih =>
    intro b b2 hp hck hrun
    rw [Bucket.run] at hrun
    cases op with
    | removeAmt a =>
      rw [clockOK] at hck
      rw [Bucket.step] at hrun
      by_cases ha : a < 0
      · rw [Bucket.remove, if_pos ha] at hrun
        exact absurd hrun (by simp)
      · rw [Bucket.remove, if_neg ha] at hrun
        dsimp only at hrun
        exact ih { b with current := b.current - a } b2 hp hck hrun
    | refillAt now =>
      rw [clockOK, Bool.and_eq_true, decide_eq_true_eq] at hck
      rw [Bucket.step] at hrun
      cases hstep : b.refill now with
      | error e => rw [hstep] at hrun; exact absurd hrun (by simp)
      | ok b1 =>
        rw [hstep] at hrun
        dsimp only at hrun
        have hinv := Bucket.refill_ok_inv b b1 now hp hck.1 hstep
        have hck1 : clockOK b1.last_refill_ns ops = true :=
          clockOK_mono _ _ _ hinv.2.2.2.2.2 hck.2
        have := ih b1 b2 (by rw [hinv.2.1]; exact hp) hck1 hrun
        omega

/-- A successful `allow` on a one-token bucket keeps the token count
between 0 and 1 and keeps the timestamp at most `now`. -/
lemma allow_step_inv (b : Bucket) (now : Int) (r : Bool) (rl2 : RateLimiter)
    (hp : 0 < b.refill_rate.period_ns) (hv : b.volume = 1)
    (h0 : 0 ≤ b.current) (h1 : b.current ≤ 1)
    (hle : b.last_refill_ns ≤ now)
    (h : RateLimiter.allow ⟨b⟩ now = .ok (r, rl2)) :
    rl2.bucket.volume = 1 ∧ rl2.bucket.refill_rate = b.refill_rate ∧
    0 ≤ rl2.bucket.current ∧ rl2.bucket.current ≤ 1 ∧
    rl2.bucket.last_refill_ns ≤ now := by
  rw [RateLimiter.allow] at h
  cases hstep : Bucket.refill b now with
  | error e => rw [hstep] at h; exact absurd h (by simp)
  | ok b1 =>
    rw [hstep] at h
    dsimp only at h
    have hinv := Bucket.refill_ok_inv b b1 now hp hle hstep
    by_cases hemp : b1.is_empty
    · rw [if_pos hemp] at h
      have h2 := (Prod.mk.injEq _ _ _ _).mp (Except.ok.inj h)
      rw [← h2.2]
      dsimp only
      exact ⟨by omega, hinv.2.1, by omega, by omega, hinv.2.2.2.2.2⟩
    · rw [if_neg hemp] at h
      rw [Bucket.is_empty, decide_eq_true_eq] at hemp
      rw [Bucket.remove, if_neg (by omega)] at h
      have h2 := (Prod.mk.injEq _ _ _ _).mp (Except.ok.inj h)
      rw [← h2.2]
      dsimp only
      exact ⟨by omega, hinv.2.1, by omega, by omega, by omega⟩

/-- Along any nondecreasing sequence of call times, a one-token bucket
driven by `allow` keeps its count between 0 and 1. -/
lemma allowTrace_inv (times : List Int) :
    ∀ (b : Bucket) (res : List Bool × RateLimiter),
    0 < b.refill_rate.period_ns → b.volume = 1 →
    0 ≤ b.current → b.current ≤ 1 →
    timesOK b.last_refill_ns times = true →
    RateLimiter.allowTrace ⟨b⟩ times = .ok res →
    0 ≤ res.2.bucket.current ∧ res.2.bucket.current ≤ 1 := by
  induction times with
  | nil =>
    intro b res _ _ h0 h1 _ h
    rw [RateLimiter.allowTrace] at h
    rw [← Except.ok.inj h]
    exact ⟨h0, h1⟩
  | cons t ts ih =>
    intro b res hp hv h0 h1 ht h
    rw [timesOK, Bool.and_eq_true, decide_eq_true_eq] at ht
    rw [RateLimiter.allowTrace] at h
    cases hstep : RateLimiter.allow ⟨b⟩ t with
    | error e => rw [hstep] at h; exact absurd h (by simp)
    | ok pr =>
      rw [hstep] at h
      obtain ⟨r, rl2⟩ := pr
      dsimp only at h
      have hinv := allow_step_inv b t r rl2 hp hv h0 h1 ht.1 hstep
      cases htrace : RateLimiter.allowTrace rl2 ts with
      | error e => rw [htrace] at h; exact absurd h (by simp)
      | ok res2 =>
        rw [htrace] at h
        dsimp only at h
        have hts : timesOK rl2.bucket.last_refill_ns ts = true := by
          cases ts with
          | nil => rfl
          | cons t2 ts2 =>
            rw [timesOK, Bool.and_eq_true, decide_eq_true_eq] at ht ⊢
            exact ⟨by omega, ht.2.2⟩
        have h2 : RateLimiter.allowTrace ⟨rl2.bucket⟩ ts = .ok res2 := by
          rw [← htrace]
        have hres := ih rl2.bucket res2 (by rw [hinv.2.1]; exact hp)
          hinv.1 hinv.2.2.1 hinv.2.2.2.1 hts h2
        rw [← Except.ok.inj h]
        exact hres

/-- Constructing the default 1-rps limiter at time 0, written out. -/
lemma RateLimiter.init_one_eq :
    RateLimiter.init 1 0 = .ok ⟨⟨1, ⟨1000000000⟩, 1, 0⟩⟩ := by
  rw [RateLimiter.init, Rate.from_frequency_pos_eq 1 (by norm_num)]
  norm_num [Except.map, Bucket.init]

/-- Constructing the 2-rps limiter at time 0, written out. -/
lemma RateLimiter.init_two_eq :
    RateLimiter.init 2 0 = .ok ⟨⟨1, ⟨500000000⟩, 1, 0⟩⟩ := by
  rw [RateLimiter.init, Rate.from_frequency_pos_eq 2 (by norm_num)]
  norm_num [Except.map, Bucket.init]

/-- Claim C1: for a bucket below volume with nonnegative elapsed time and
a positive period, `refill` sets `current` to
`min (current + floor(elapsed / period_ns)) volume` and advances the
timestamp by exactly `floor(elapsed / period_ns) * period_ns` (not to
`now`); for a bucket at or above volume, `refill` leaves `current`
unchanged and sets the timestamp to `now`.  The linear formula covers zero
and negative `current` with no special-casing. -/
theorem refill_formula (b : Bucket) (now : Int)
    (hp : 0 < b.refill_rate.period_ns) :
    (b.current < b.volume → 0 ≤ now - b.last_refill_ns →
      b.refill now = .ok { b with
        current := min
          (b.current + (now - b.last_refill_ns) / b.refill_rate.period_ns)
          b.volume,
        last_refill_ns := b.last_refill_ns
          + (now - b.last_refill_ns) / b.refill_rate.period_ns
            * b.refill_rate.period_ns }) ∧
    (b.volume ≤ b.current →
      b.refill now = .ok { b with last_refill_ns := now }) := by
  constructor
  · intro hlt he
    rw [Bucket.refill_needed_eq b now hlt (ne_of_gt hp),
      Int.tdiv_eq_ediv he hp.le]
  · intro hge
    exact Bucket.refill_full_eq b now hge

/-- Witness for C1: a bucket of volume 2, period 5, zero tokens, refilled
12ns later gains 2 tokens and advances its timestamp to 10; a full bucket
keeps its count and jumps to `now`. -/
theorem refill_formula_witness :
    (0 : Int) < 5 ∧
    Bucket.refill ⟨2, ⟨5⟩, 0, 0⟩ 12
      = .ok ⟨2, ⟨5⟩, min ((0 : Int) + ((12 : Int) - 0) / 5) 2,
          (0 : Int) + ((12 : Int) - 0) / 5 * 5⟩ ∧
    Bucket.refill ⟨2, ⟨5⟩, 3, 0⟩ 12 = .ok ⟨2, ⟨5⟩, 3, 12⟩ :=
  ⟨by decide,
   (refill_formula ⟨2, ⟨5⟩, 0, 0⟩ 12 (by decide)).1 (by decide) (by decide),
   (refill_formula ⟨2, ⟨5⟩, 3, 0⟩ 12 (by decide)).2 (by decide)⟩

/-- Claim C2: `allow` first refills the owned bucket; when the refilled
bucket is empty (`current ≤ 0`) it returns `false` with the token count
unchanged (rejection consumes no token), otherwise it removes exactly one
token and returns `true`. -/
theorem allow_spec (rl : RateLimiter) (now : Int) (br : Bucket)
    (h : rl.bucket.refill now = .ok br) :
    (br.current ≤ 0 → rl.allow now = .ok (false, ⟨br⟩)) ∧
    (0 < br.current →
      rl.allow now = .ok (true, ⟨{ br with current := br.current - 1 }⟩)) := by
  constructor
  · intro hc
    rw [RateLimiter.allow, h]
    dsimp only
    rw [if_pos (by rw [Bucket.is_empty, decide_eq_true_eq]; exact hc)]
  · intro hc
    rw [RateLimiter.allow, h]
    dsimp only
    rw [if_neg (by rw [Bucket.is_empty, decide_eq_true_eq]; omega),
      Bucket.remove, if_neg (by omega)]

/-- Witness for C2: a full one-token bucket admits the call and drops to
zero tokens. -/
theorem allow_spec_witness :
    Bucket.refill ⟨1, ⟨10⟩, 1, 0⟩ 0 = .ok ⟨1, ⟨10⟩, 1, 0⟩ ∧
    RateLimiter.allow ⟨⟨1, ⟨10⟩, 1, 0⟩⟩ 0
      = .ok (true, ⟨⟨1, ⟨10⟩, (1 : Int) - 1, 0⟩⟩) :=
  ⟨rfl, (allow_spec ⟨⟨1, ⟨10⟩, 1, 0⟩⟩ 0 ⟨1, ⟨10⟩, 1, 0⟩ rfl).2 (by decide)⟩

/-- Claim C3: `Rate` construction computes `period_ns` as the floor of
`periodNs / amount` by exact integer division; `Rate(2, P)` equals
`Rate(1, P / 2)` for `P` cleanly divisible by 2; and two `Rate`s are equal
iff their normalised `period_ns` values are equal. -/
theorem rate_normalization (amount p : Int) (ha : 1 ≤ amount) (hp : 0 < p) :
    Rate.make amount p = .ok ⟨p / amount⟩ ∧
    (2 ∣ p → Rate.make 2 p = Rate.make 1 (p / 2)) ∧
    (∀ r s : Rate, r = s ↔ r.period_ns = s.period_ns) := by
  refine ⟨Rate.make_eq amount p ha hp.le, ?_, ?_⟩
  · intro _
    rw [Rate.make_eq 2 p (by omega) hp.le,
      Rate.make_eq 1 (p / 2) (by omega) (Int.ediv_nonneg hp.le (by omega)),
      Int.ediv_one]
  · intro r s
    constructor
    · intro h; rw [h]
    · intro h; cases r; cases s; simpa using h

/-- Witness for C3 at amount 2 and period 10. -/
theorem rate_normalization_witness :
    (1 : Int) ≤ 2 ∧ (0 : Int) < 10 ∧
    (Rate.make 2 10 = .ok ⟨(10 : Int) / 2⟩ ∧
     ((2 : Int) ∣ 10 → Rate.make 2 10 = Rate.make 1 ((10 : Int) / 2)) ∧
     (∀ r s : Rate, r = s ↔ r.period_ns = s.period_ns)) :=
  ⟨by decide, by decide, rate_normalization 2 10 (by decide) (by decide)⟩

/-- Claim C4 counterexample: at frequency 7 the code stores 142857142
(truncation of 10^9 / 7) while rounding to nearest gives 142857143, so
`fromFrequency f` is not `Rate(1, round(10^9 / f))`. -/
theorem from_frequency_round_counterexample :
    Rate.from_frequency 7 = .ok ⟨142857142⟩ ∧
    round ((1000000000 : ℚ) / 7) = 142857143 ∧
    Rate.from_frequency 7 ≠ .ok ⟨round ((1000000000 : ℚ) / 7)⟩ := by
  have h1 : ⌊(1000000000 : ℚ) / 7⌋ = 142857142 := by norm_num
  have h2 : round ((1000000000 : ℚ) / 7) = 142857143 := by
    rw [round_eq]; norm_num
  refine ⟨by rw [Rate.from_frequency_pos_eq 7 (by norm_num), h1], h2, ?_⟩
  rw [Rate.from_frequency_pos_eq 7 (by norm_num), h1, h2]
  simp

/-- Claim C4 amended: for every positive frequency `f`, `fromFrequency f`
equals `Rate(1, ⌊10^9 / f⌋)` — the period is the floor (truncation) of
`10^9 / f`, not the nearest-integer rounding. -/
theorem from_frequency_floor (f : ℚ) (hf : 0 < f) :
    Rate.from_frequency f = .ok ⟨⌊(1000000000 : ℚ) / f⌋⟩ ∧
    Rate.from_frequency f = Rate.make 1 ⌊(1000000000 : ℚ) / f⌋ := by
  refine ⟨Rate.from_frequency_pos_eq f hf, ?_⟩
  rw [Rate.from_frequency_pos_eq f hf, Rate.make_one]

/-- Witness for the amended C4 at frequency 2. -/
theorem from_frequency_floor_witness :
    (0 : ℚ) < 2 ∧
    (Rate.from_frequency 2 = .ok ⟨⌊(1000000000 : ℚ) / 2⌋⟩ ∧
     Rate.from_frequency 2 = Rate.make 1 ⌊(1000000000 : ℚ) / 2⌋) :=
  ⟨by norm_num, from_frequency_floor 2 (by norm_num)⟩

/-- Claim C5 counterexample: a full bucket with period 2 refilled at time
1 advances its timestamp from 0 to 1 — forward, but not by a whole
multiple of the period, refuting the whole-period-increment invariant for
the full-bucket branch. -/
theorem refill_full_timestamp_counterexample :
    Bucket.refill ⟨1, ⟨2⟩, 1, 0⟩ 1 = .ok ⟨1, ⟨2⟩, 1, 1⟩ ∧
    ¬ ((2 : Int) ∣ ((1 : Int) - 0)) :=
  ⟨rfl, by decide⟩

/-- Claim C5 amended: with a positive period and a monotonic clock, the
refill timestamp never decreases across any operation sequence; a refill
performed below volume advances it by a whole multiple of `period_ns`,
while a refill on a full bucket sets it to `now`. -/
theorem last_refill_monotone (b : Bucket)
    (hp : 0 < b.refill_rate.period_ns) :
    (∀ (ops : List BucketOp) (b2 : Bucket),
      clockOK b.last_refill_ns ops = true → b.run ops = .ok b2 →
      b.last_refill_ns ≤ b2.last_refill_ns) ∧
    (∀ (now : Int) (b2 : Bucket), b.current < b.volume →
      b.refill now = .ok b2 →
      b.refill_rate.period_ns ∣ (b2.last_refill_ns - b.last_refill_ns)) ∧
    (∀ (now : Int), b.volume ≤ b.current →
      b.refill now = .ok { b with last_refill_ns := now }) := by
  refine ⟨fun ops b2 => run_last_mono ops b b2 hp, ?_,
    fun now => Bucket.refill_full_eq b now⟩
  intro now b2 hlt h
  rw [Bucket.refill_needed_eq b now hlt (ne_of_gt hp)] at h
  rw [← Except.ok.inj h]
  dsimp only
  exact ⟨(now - b.last_refill_ns).tdiv b.refill_rate.period_ns, by ring⟩

/-- Witness for the amended C5: an empty volume-1 bucket with period 2
refilled at time 5 moves its timestamp from 0 to 4, a whole multiple of
the period, and never backward. -/
theorem last_refill_monotone_witness :
    (0 : Int) < 2 ∧ (0 : Int) ≤ 4 ∧ ((2 : Int) ∣ ((4 : Int) - 0)) :=
  ⟨by decide,
   (last_refill_monotone ⟨1, ⟨2⟩, 0, 0⟩ (by decide)).1 [.refillAt 5]
     ⟨1, ⟨2⟩, 1, 4⟩ (by rfl) (by rfl),
   (last_refill_monotone ⟨1, ⟨2⟩, 0, 0⟩ (by decide)).2.1 5
     ⟨1, ⟨2⟩, 1, 4⟩ (by decide) (by rfl)⟩

/-- Claim C6 counterexample: a limiter at 2 requests per second probed
every half second accepts every call — the acceptance pattern is all-true,
not alternating, because a full period elapses before each call. -/
theorem two_rps_trace_counterexample :
    RateLimiter.init 2 0 = .ok ⟨⟨1, ⟨500000000⟩, 1, 0⟩⟩ ∧
    RateLimiter.allowTrace ⟨⟨1, ⟨500000000⟩, 1, 0⟩⟩
      [0, 500000000, 1000000000, 1500000000, 2000000000]
      = .ok ([true, true, true, true, true],
          ⟨⟨1, ⟨500000000⟩, 0, 2000000000⟩⟩) ∧
    [true, true, true, true, true] ≠ [true, false, true, false, true] :=
  ⟨RateLimiter.init_two_eq, by rfl, by decide⟩

/-- Claim C6 amended: the alternating pattern [true, false, true, false,
true] arises for the default 1-request-per-second limiter probed every
half second (the doctest scenario, where the sleep is half the refill
period); at 2 requests per second the same probing accepts all five
calls. -/
theorem one_rps_alternating_trace :
    RateLimiter.init 1 0 = .ok ⟨⟨1, ⟨1000000000⟩, 1, 0⟩⟩ ∧
    RateLimiter.allowTrace ⟨⟨1, ⟨1000000000⟩, 1, 0⟩⟩
      [0, 500000000, 1000000000, 1500000000, 2000000000]
      = .ok ([true, false, true, false, true],
          ⟨⟨1, ⟨1000000000⟩, 0, 2000000000⟩⟩) :=
  ⟨RateLimiter.init_one_eq, by rfl⟩

/-- Claim C7 counterexample: `from_frequency (-1)` does not raise
`InvalidArgument` — it constructs a rate with period -10^9 — and
`from_frequency 0` raises `ZeroDivisionError`, not `InvalidArgument`. -/
theorem from_frequency_negative_counterexample :
    Rate.from_frequency (-1) = .ok ⟨-1000000000⟩ ∧
    Rate.from_frequency 0 = .error .zeroDivisionError := by
  constructor
  · rw [Rate.from_frequency, if_neg (by norm_num)]
    dsimp only
    have h1 : 1 / (-1 : ℚ) * ((SECOND_AS_NS : Int) : ℚ)
        = ((-1000000000 : Int) : ℚ) := by
      norm_num [SECOND_AS_NS]
    rw [h1, pyTrunc_intCast, Rate.make_one]
  · rw [Rate.from_frequency, if_pos rfl]

/-- Claim C7 amended: `from_frequency` performs no sign validation: for
every `f < 0` it returns a `Rate` whose period is nonpositive instead of
raising an error, and for `f = 0` it raises `ZeroDivisionError`, not
`InvalidArgument`. -/
theorem from_frequency_no_validation (f : ℚ) (hf : f < 0) :
    Rate.from_frequency f
      = .ok ⟨pyTrunc (1 / f * ((SECOND_AS_NS : Int) : ℚ))⟩ ∧
    pyTrunc (1 / f * ((SECOND_AS_NS : Int) : ℚ)) ≤ 0 ∧
    Rate.from_frequency 0 = .error .zeroDivisionError := by
  have hq : 1 / f * ((SECOND_AS_NS : Int) : ℚ) ≤ 0 := by
    have hneg : 1 / f < 0 := one_div_neg.mpr hf
    have hS : (0 : ℚ) ≤ ((SECOND_AS_NS : Int) : ℚ) := by
      norm_num [SECOND_AS_NS]
    nlinarith [hneg, hS]
  refine ⟨?_, ?_, by rw [Rate.from_frequency, if_pos rfl]⟩
  · rw [Rate.from_frequency, if_neg (ne_of_lt hf)]
    dsimp only
    rw [Rate.make_one]
  · rw [pyTrunc_eq_ceil _ hq]
    exact Int.ceil_le.mpr (by exact_mod_cast hq)

/-- Witness for the amended C7 at frequency -2. -/
theorem from_frequency_no_validation_witness :
    (-2 : ℚ) < 0 ∧
    (Rate.from_frequency (-2)
       = .ok ⟨pyTrunc (1 / (-2 : ℚ) * ((SECOND_AS_NS : Int) : ℚ))⟩ ∧
     pyTrunc (1 / (-2 : ℚ) * ((SECOND_AS_NS : Int) : ℚ)) ≤ 0 ∧
     Rate.from_frequency 0 = .error .zeroDivisionError) :=
  ⟨by norm_num, from_frequency_no_validation (-2) (by norm_num)⟩

/-- Claim C8: `Rate(0, P)` and `remove(-1)` raise `InvalidArgument`
(Python `ValueError`) with no state produced — validation precedes
mutation — and for every `amount ≥ 0` `remove` decrements `current` by
`amount` unconditionally, possibly driving it negative. -/
theorem invalid_argument_rejection (b : Bucket) (amount : Int)
    (ha : 0 ≤ amount) :
    (∀ (p : Int), Rate.make 0 p = .error .valueError) ∧
    b.remove (-1) = .error .valueError ∧
    b.remove amount = .ok { b with current := b.current - amount } := by
  refine ⟨fun p => by rw [Rate.make, if_pos (by decide)],
    by rw [Bucket.remove, if_pos (by decide)], ?_⟩
  rw [Bucket.remove, if_neg (not_lt.mpr ha)]

/-- Witness for C8: removing 3 from a one-token bucket overdrafts it to
-2. -/
theorem invalid_argument_rejection_witness :
    (0 : Int) ≤ 3 ∧
    ((∀ (p : Int), Rate.make 0 p = .error .valueError) ∧
     Bucket.remove ⟨1, ⟨10⟩, 1, 0⟩ (-1) = .error .valueError ∧
     Bucket.remove ⟨1, ⟨10⟩, 1, 0⟩ 3 = .ok ⟨1, ⟨10⟩, (1 : Int) - 3, 0⟩) :=
  ⟨by decide, invalid_argument_rejection ⟨1, ⟨10⟩, 1, 0⟩ 3 (by decide)⟩

/-- Claim C9: in every state reached by constructing a `RateLimiter` (with
a positive normalised period) and running any nondecreasing sequence of
`allow` calls, the owned bucket holds exactly 0 or 1 tokens. -/
theorem limiter_current_zero_or_one (rps : ℚ) (t0 : Int) (rl0 : RateLimiter)
    (times : List Int) (res : List Bool × RateLimiter)
    (hinit : RateLimiter.init rps t0 = .ok rl0)
    (hp : 0 < rl0.bucket.refill_rate.period_ns)
    (ht : timesOK t0 times = true)
    (htrace : rl0.allowTrace times = .ok res) :
    res.2.bucket.current = 0 ∨ res.2.bucket.current = 1 := by
  cases hfr : Rate.from_frequency rps with
  | error e =>
    rw [RateLimiter.init, hfr] at hinit
    exact absurd hinit (by simp [Except.map])
  | ok r =>
    rw [RateLimiter.init, hfr] at hinit
    dsimp only [Except.map] at hinit
    have h2 := Except.ok.inj hinit
    subst h2
    have hres := allowTrace_inv times (Bucket.init 1 r t0) res hp rfl
      ((by decide : (0 : Int) ≤ 1)) ((by decide : (1 : Int) ≤ 1)) ht htrace
    omega

/-- Witness for C9: the 1-rps limiter called at times 0 and 1 ends with
zero tokens. -/
theorem limiter_current_zero_or_one_witness :
    RateLimiter.init 1 0 = .ok ⟨⟨1, ⟨1000000000⟩, 1, 0⟩⟩ ∧
    (0 : Int) < 1000000000 ∧
    timesOK 0 [0, 1] = true ∧
    (((([true, false], ⟨⟨1, ⟨1000000000⟩, 0, 0⟩⟩) :
        List Bool × RateLimiter)).2.bucket.current = 0 ∨
      ((([true, false], ⟨⟨1, ⟨1000000000⟩, 0, 0⟩⟩) :
        List Bool × RateLimiter)).2.bucket.current = 1) :=
  ⟨RateLimiter.init_one_eq, by decide, by rfl,
   limiter_current_zero_or_one 1 0 ⟨⟨1, ⟨1000000000⟩, 1, 0⟩⟩ [0, 1]
     ([true, false], ⟨⟨1, ⟨1000000000⟩, 0, 0⟩⟩)
     RateLimiter.init_one_eq (by decide) (by rfl) (by rfl)⟩

/-- Claim C10: `Rate(1, 0)` succeeds with a zero period, `from_frequency`
of a frequency above 10^9 also yields a zero period, and `refill` on a
below-volume bucket whose rate has a zero period raises a
division-by-zero error. -/
theorem zero_period_division (b : Bucket) (now : Int)
    (hlt : b.current < b.volume) (hz : b.refill_rate.period_ns = 0) :
    Rate.make 1 0 = .ok ⟨0⟩ ∧
    Rate.from_frequency 2000000000 = .ok ⟨0⟩ ∧
    b.refill now = .error .zeroDivisionError := by
  refine ⟨Rate.make_one 0, ?_, ?_⟩
  · rw [Rate.from_frequency_pos_eq 2000000000 (by norm_num)]
    norm_num
  · rw [Bucket.refill, if_pos hlt, if_pos hz]

/-- Witness for C10: an empty volume-1 bucket with a zero-period rate
raises on refill. -/
theorem zero_period_division_witness :
    (0 : Int) < 1 ∧ ((0 : Int) = 0) ∧
    (Rate.make 1 0 = .ok ⟨0⟩ ∧
     Rate.from_frequency 2000000000 = .ok ⟨0⟩ ∧
     Bucket.refill ⟨1, ⟨0⟩, 0, 0⟩ 0 = .error .zeroDivisionError) :=
  ⟨by decide, rfl, zero_period_division ⟨1, ⟨0⟩, 0, 0⟩ 0 (by decide) rfl⟩
